import Mathlib

/-!
Verification model of GDB's interpreter management and event notification
subsystem (gdb/interps.h).  Interpreter instances ("front-ends") are keyed
by name inside a session ("UI"); a process-wide factory registry creates
them lazily; notification functions broadcast debuggee lifecycle events to
every instantiated interpreter of every session; `scoped_restore_interp`
temporarily switches the current interpreter and restores it on exit.

The header declares the interface; the bodies of `interp_lookup`,
`scoped_restore_interp::set_interp`, `set_top_level_interpreter`,
`current_interp_set_logging` and the `interps_notify_*` functions live in
interps.c, which is not among the sources; those operations are modelled
from the specification and each such definition says so in its doc comment.
Interpreter instances are modelled by an observable record instrumented
with counters that log the virtual hook invocations (`init`, `resume`,
`suspend`, `set_logging`, and the `on_*` notification hooks).
-/

namespace Interps

/-- The event kinds whose broadcast is declared in interps.h
(`interps_notify_signal_received` .. `interps_notify_inferior_appeared`,
interps.h:219-252), one per `on_*` notification hook of `class interp`. -/
inductive EventKind where
  | signalReceived
  | signalExited
  | normalStop
  | noHistory
  | exited
  | userSelectedContextChanged
  | newThread
  | threadExited
  | inferiorAdded
  | inferiorAppeared
deriving DecidableEq

/-- Observable state of one interpreter instance (`class interp`,
interps.h:48-138).  `name` and `inited` are the fields of the C++ class;
`id` stands for the object's identity (its address); the counters record
how often each virtual hook has been invoked, `initFlag` records the
`top_level` argument passed to `init`, `resumed` tracks whether the
instance is between a `resume` and the next `suspend`, and `events` logs
the notification hook invocations in order. -/
structure Interp where
  id : Nat
  name : String
  inited : Bool
  initCount : Nat
  initFlag : Option Bool
  resumeCount : Nat
  suspendCount : Nat
  resumed : Bool
  setLoggingCount : Nat
  events : List EventKind
deriving DecidableEq

/-- A freshly constructed, uninitialized interpreter instance, as produced
by a registered factory function (`interp_factory_func`, interps.h:35):
`inited` is false (interps.h:137) and no hook has run yet. -/
def freshInterp (id0 : Nat) (n : String) : Interp :=
  { id := id0, name := n, inited := false, initCount := 0, initFlag := none,
    resumeCount := 0, suspendCount := 0, resumed := false,
    setLoggingCount := 0, events := [] }

/-- Effect of `interp::init (top_level)` (interps.h:54) followed by setting
`inited` (interps.h:137): records the flag and marks the instance
initialized. -/
def initInterp (topLevel : Bool) (i : Interp) : Interp :=
  { i with inited := true, initCount := i.initCount + 1,
           initFlag := some topLevel }

/-- Effect of `interp::resume ()` (interps.h:57). -/
def resumeInterp (i : Interp) : Interp :=
  { i with resumed := true, resumeCount := i.resumeCount + 1 }

/-- Effect of `interp::suspend ()` (interps.h:58). -/
def suspendInterp (i : Interp) : Interp :=
  { i with resumed := false, suspendCount := i.suspendCount + 1 }

/-- Effect of one `on_*` notification hook invocation for event kind `k`
(interps.h:88-129): the invocation is appended to the instance's log. -/
def notifyInterp (k : EventKind) (i : Interp) : Interp :=
  { i with events := i.events ++ [k] }

/-- Effect of `interp::set_logging` (interps.h:71). -/
def logInterp (i : Interp) : Interp :=
  { i with setLoggingCount := i.setLoggingCount + 1 }

/-- One session ("UI"): its insertion-ordered collection of instantiated
interpreters, and the ids of its current and top-level interpreters. -/
structure UI where
  interps : List Interp
  currentId : Option Nat
  topLevelId : Option Nat
deriving DecidableEq

/-- A session with no interpreters instantiated yet. -/
def emptyUI : UI := { interps := [], currentId := none, topLevelId := none }

/-- Find the interpreter instance registered under name `n` in a session's
collection. -/
def findByName (l : List Interp) (n : String) : Option Interp :=
  l.find? (fun i => i.name == n)

/-- Apply `f` to the instance whose identity is `id0`, leaving every other
instance unchanged (an in-place mutation of one object). -/
def updateInst (l : List Interp) (id0 : Nat) (f : Interp → Interp) : List Interp :=
  l.map (fun i => if i.id = id0 then f i else i)

/-- Remove the instance whose identity is `id0` from the collection (the
spec's "the instance is discarded" on initialization failure). -/
def discardById (l : List Interp) (id0 : Nat) : List Interp :=
  l.filter (fun i => i.id != id0)

/-- Errors of the subsystem (spec taxonomy §7): unknown interpreter name,
or the instance's `init` failed. -/
inductive InterpErr where
  | unknownFrontEndType (n : String)
  | initializationFailure (n : String)
deriving DecidableEq

/-- Modelled from the spec: `interp_factory_register` (interps.h:43) is
defined in interps.c, which is not among the sources.  Spec §4.1: store the
name→factory association; registering the same name twice is a fatal
programming error (modelled as `none`). -/
def interp_factory_register (reg : List String) (n : String) : Option (List String) :=
  if n ∈ reg then none else some (reg ++ [n])

/-- Modelled from the spec: the body of `interp_lookup` (declared
interps.h:140-144) is in interps.c, which is not among the sources.  Spec
§4.3: if `n` already has an instance within the session, return it;
otherwise, if a factory is registered for `n`, create a new uninitialized
instance, store it in the session's collection, and return it; for an
unregistered name return NULL (`none`).  `nid` is the next fresh object
identity. -/
def interp_lookup (reg : List String) (nid : Nat) (ui : UI) (n : String) :
    Option (UI × Interp × Nat) :=
  match findByName ui.interps n with
  | some i => some (ui, i, nid)
  | none =>
      if n ∈ reg then
        some ({ ui with interps := ui.interps ++ [freshInterp nid n] },
              freshInterp nid n, nid + 1)
      else none

/-- Suspend the previous current interpreter (if any), make `id0` current,
and resume it: the tail of the spec's switch sequence, shared by
`set_interp` and `set_top_level_interpreter`. -/
def finishSwitch (ui : UI) (id0 : Nat) : UI :=
  let l1 := match ui.currentId with
    | none => ui.interps
    | some c => updateInst ui.interps c suspendInterp
  { ui with interps := updateInst l1 id0 resumeInterp, currentId := some id0 }

/-- Modelled from the spec: `scoped_restore_interp::set_interp` is declared
at interps.h:172 but defined in interps.c, which is not among the sources.
Spec §4.3 `switch_current`: resolve or create the instance; initialize it
with `is_top_level=false` if not yet initialized; suspend the previous
current (if any); set the new current; resume it; return the previous
current.  On an unknown name or an `init` failure an error is signalled,
the factory-produced instance is discarded (spec §4.2) and the previous
current assignment is left unchanged.  `initOk n` says whether `init`
succeeds for instances named `n`.  Result: (error?, session, next fresh
id, previous current). -/
def set_interp (initOk : String → Bool) (reg : List String) (nid : Nat)
    (ui : UI) (n : String) : Option InterpErr × UI × Nat × Option Nat :=
  match interp_lookup reg nid ui n with
  | none => (some (.unknownFrontEndType n), ui, nid, none)
  | some (ui1, inst, nid1) =>
      if inst.inited then
        (none, finishSwitch ui1 inst.id, nid1, ui.currentId)
      else if initOk n then
        (none,
         finishSwitch
           { ui1 with interps := updateInst ui1.interps inst.id (initInterp false) }
           inst.id,
         nid1, ui.currentId)
      else
        (some (.initializationFailure n),
         { ui1 with interps := discardById ui1.interps inst.id }, nid, none)

/-- Modelled from the spec: the body of `set_top_level_interpreter`
(declared interps.h:146-149) is in interps.c, which is not among the
sources.  Spec §4.3 `set_top_level`: resolve or create the instance,
initialize it with `is_top_level=true` if not yet initialized, set it as
both top-level and current (suspending the previous current), and resume
it.  If the name is unknown or `init` fails, an error is signalled, the
factory-produced instance is discarded, and the session's prior
current/top-level assignments are unchanged. -/
def set_top_level_interpreter (initOk : String → Bool) (reg : List String)
    (nid : Nat) (ui : UI) (n : String) : Option InterpErr × UI × Nat :=
  match interp_lookup reg nid ui n with
  | none => (some (.unknownFrontEndType n), ui, nid)
  | some (ui1, inst, nid1) =>
      if inst.inited then
        (none, { finishSwitch ui1 inst.id with topLevelId := some inst.id }, nid1)
      else if initOk n then
        (none,
         { finishSwitch
             { ui1 with interps := updateInst ui1.interps inst.id (initInterp true) }
             inst.id
           with topLevelId := some inst.id },
         nid1)
      else
        (some (.initializationFailure n),
         { ui1 with interps := discardById ui1.interps inst.id }, nid)

/-- Modelled from the spec: restoring the remembered front-end by
reinstating the stored pointer directly as the current interpreter
(suspend the outgoing one, set the stored instance current, resume it).
This is the spec-words alternative against which the header's by-name
restore (`set_interp (m_interp->name ())`, interps.h:164) is compared. -/
def restoreByIdentity (ui : UI) (savedId : Nat) : UI :=
  finishSwitch ui savedId

/-- The whole process: every session, and the index of the active one
(`current_ui` in the surrounding system). -/
structure State where
  uis : List UI
  activeUi : Nat
deriving DecidableEq

/-- Modelled from the spec: the bodies of the `interps_notify_*` functions
(declared interps.h:219-252) are in interps.c, which is not among the
sources.  Spec §4.5: for the event kind `k`, iterate every session and,
within each, every instantiated front-end — current or not — and invoke
the matching hook once, in stable insertion order. -/
def interps_notify (k : EventKind) (s : State) : State :=
  { s with uis := s.uis.map (fun ui =>
      { ui with interps := ui.interps.map (notifyInterp k) }) }

/-- Forward a logging reconfiguration to a session's current interpreter
(and only it). -/
def uiSetLogging (ui : UI) : UI :=
  match ui.currentId with
  | none => ui
  | some c => { ui with interps := updateInst ui.interps c logInterp }

/-- Modelled from the spec: the body of `current_interp_set_logging`
(declared interps.h:190-192) is in interps.c, which is not among the
sources.  Spec §4.6: forward to the active session's current front-end's
logging hook only, not to all front-ends. -/
def current_interp_set_logging (s : State) : State :=
  match s.uis[s.activeUi]? with
  | none => s
  | some ui => { s with uis := s.uis.set s.activeUi (uiSetLogging ui) }

/-- The session-level operations of the subsystem, for stating invariants
over arbitrary operation sequences. -/
inductive Op where
  | lookup (n : String)
  | setTop (n : String)
  | switch (n : String)
  | notify (k : EventKind)
  | setLogging
deriving DecidableEq

/-- One operation applied to a session (with the fresh-id counter). -/
def stepUI (initOk : String → Bool) (reg : List String) (p : UI × Nat)
    (op : Op) : UI × Nat :=
  match op with
  | .lookup n =>
      match interp_lookup reg p.2 p.1 n with
      | some (ui1, _, nid1) => (ui1, nid1)
      | none => p
  | .switch n =>
      let r := set_interp initOk reg p.2 p.1 n
      (r.2.1, r.2.2.1)
  | .setTop n =>
      let r := set_top_level_interpreter initOk reg p.2 p.1 n
      (r.2.1, r.2.2)
  | .notify k => ({ p.1 with interps := p.1.interps.map (notifyInterp k) }, p.2)
  | .setLogging => (uiSetLogging p.1, p.2)

/-- A sequence of operations applied to a session. -/
def runOps (initOk : String → Bool) (reg : List String) (p : UI × Nat)
    (ops : List Op) : UI × Nat :=
  ops.foldl (stepUI initOk reg) p

/-- Does the session's current pointer (when set) refer to an initialized
instance present in its collection? -/
def currentOkB (ui : UI) : Bool :=
  ui.currentId.all (fun c => ui.interps.any (fun i => i.id == c && i.inited))

/-- Well-formedness invariant of a session (spec §3 invariant set):
object identities and names are unique, identities are below the fresh-id
counter, `init` has run at most once per instance and exactly once on the
initialized ones, the current pointer refers to an initialized member of
the collection, and only the current instance may be in the resumed
state. -/
def Inv (nid : Nat) (ui : UI) : Prop :=
  (ui.interps.map (fun i => i.id)).Nodup ∧
  (ui.interps.map (fun i => i.name)).Nodup ∧
  (∀ i ∈ ui.interps, i.id < nid) ∧
  (∀ i ∈ ui.interps, i.initCount ≤ 1 ∧ (i.inited = true ↔ i.initCount = 1)) ∧
  currentOkB ui = true ∧
  (∀ i ∈ ui.interps, i.resumed = true → ui.currentId = some i.id)

/-- How a single instance may evolve across operations: identity and name
never change, the inited flag is never cleared once set, and the number of
`init` invocations never decreases. -/
def Evol (i0 i1 : Interp) : Prop :=
  i1.id = i0.id ∧ i1.name = i0.name ∧
  (i0.inited = true → i1.inited = true) ∧ i0.initCount ≤ i1.initCount

/-- A sample session: an initialized, resumed console interpreter (the
current one) and an instantiated but uninitialized mi interpreter. -/
def sampleUI : UI :=
  { interps := [resumeInterp (initInterp true (freshInterp 0 "console")),
                freshInterp 1 "mi"],
    currentId := some 0, topLevelId := some 0 }

/-- A second sample session with its own current console interpreter. -/
def sampleUI2 : UI :=
  { interps := [resumeInterp (initInterp true (freshInterp 2 "console"))],
    currentId := some 2, topLevelId := some 2 }

/-- A sample process state with two sessions, the first being active. -/
def sampleState : State := { uis := [sampleUI, sampleUI2], activeUi := 0 }

/-- A sample registry with three interpreter kinds registered. -/
def regSample : List String := ["console", "mi", "insight"]

/-- An `init` oracle under which every interpreter initializes successfully. -/
def allOk : String → Bool := fun _ => true

/-- Result of opening a first guard region on `sampleUI`: switch to mi. -/
def guard1 : Option InterpErr × UI × Nat × Option Nat :=
  set_interp allOk regSample 2 sampleUI "mi"

/-- Result of opening a nested second guard region: switch to insight. -/
def guard2 : Option InterpErr × UI × Nat × Option Nat :=
  set_interp allOk regSample guard1.2.2.1 guard1.2.1 "insight"

instance instDecidableInv (nid : Nat) (ui : UI) : Decidable (Inv nid ui) := by
  unfold Inv
  infer_instance

/-! Helper lemmas about the collection operations. -/

theorem mem_updateInst_of_mem {l : List Interp} {i : Interp} (h : i ∈ l)
    (id0 : Nat) (f : Interp → Interp) :
    (if i.id = id0 then f i else i) ∈ updateInst l id0 f := by
  exact List.mem_map_of_mem _ h

theorem exists_of_mem_updateInst {l : List Interp} {id0 : Nat}
    {f : Interp → Interp} {j : Interp} (h : j ∈ updateInst l id0 f) :
    ∃ i ∈ l, j = if i.id = id0 then f i else i := by
  simp only [updateInst, List.mem_map] at h
  rcases h with ⟨i, hi, hj⟩
  exact ⟨i, hi, hj.symm⟩

theorem updateInst_map_attr {β : Type} {l : List Interp} {id0 : Nat}
    (f : Interp → Interp) (g : Interp → β) (hf : ∀ i, g (f i) = g i) :
    (updateInst l id0 f).map g = l.map g := by
  induction l with
  | nil => rfl
  | cons a t ih =>
      simp only [updateInst, List.map_cons] at ih ⊢
      rw [ih]
      by_cases h : a.id = id0
      · rw [if_pos h, hf]
      · rw [if_neg h]

theorem eq_of_mem_of_id_nodup {l : List Interp}
    (hnd : (l.map (fun i => i.id)).Nodup) {i j : Interp}
    (hi : i ∈ l) (hj : j ∈ l) (hij : i.id = j.id) : i = j :=
  List.inj_on_of_nodup_map hnd hi hj hij

theorem eq_of_mem_of_name_nodup {l : List Interp}
    (hnd : (l.map (fun i => i.name)).Nodup) {i j : Interp}
    (hi : i ∈ l) (hj : j ∈ l) (hij : i.name = j.name) : i = j :=
  List.inj_on_of_nodup_map hnd hi hj hij

theorem findByName_some {l : List Interp} {n : String} {i : Interp}
    (h : findByName l n = some i) : i ∈ l ∧ i.name = n := by
  refine ⟨List.mem_of_find?_eq_some h, ?_⟩
  have := List.find?_some h
  simpa [beq_iff_eq] using this

theorem findByName_none {l : List Interp} {n : String} :
    findByName l n = none ↔ ∀ i ∈ l, i.name ≠ n := by
  simp [findByName, List.find?_eq_none]

theorem findByName_of_mem {l : List Interp}
    (hnd : (l.map (fun i => i.name)).Nodup) {i : Interp} (hi : i ∈ l) :
    findByName l i.name = some i := by
  induction l with
  | nil => cases hi
  | cons a t ih =>
      rcases List.mem_cons.mp hi with rfl | hmem
      · simp [findByName, List.find?_cons]
      · have hnd' : (t.map (fun i => i.name)).Nodup :=
          (List.nodup_cons.mp hnd).2
        have hna : a.name ∉ t.map (fun i => i.name) :=
          (List.nodup_cons.mp hnd).1
        have hne : (a.name == i.name) = false := by
          simp only [beq_eq_false_iff_ne, ne_eq]
          intro hEq
          exact hna (hEq ▸ List.mem_map_of_mem _ hmem)
        simp only [findByName, List.find?_cons, hne]
        exact ih hnd' hmem

theorem findByName_append_singleton {l : List Interp} {n : String} {x : Interp}
    (h : findByName l n = none) (hx : x.name = n) :
    findByName (l ++ [x]) n = some x := by
  unfold findByName at h ⊢
  rw [List.find?_append, h]
  simp [List.find?_cons, hx]

theorem set_interp_of_lookup {initOk : String → Bool} {reg : List String}
    {nid : Nat} {ui : UI} {n : String} {ui1 : UI} {inst : Interp} {nid1 : Nat}
    (hl : interp_lookup reg nid ui n = some (ui1, inst, nid1)) :
    set_interp initOk reg nid ui n =
      (if inst.inited then
        (none, finishSwitch ui1 inst.id, nid1, ui.currentId)
      else if initOk n then
        (none,
         finishSwitch
           { ui1 with interps := updateInst ui1.interps inst.id (initInterp false) }
           inst.id,
         nid1, ui.currentId)
      else
        (some (.initializationFailure n),
         { ui1 with interps := discardById ui1.interps inst.id }, nid, none)) := by
  unfold set_interp
  rw [hl]

theorem set_top_level_of_lookup {initOk : String → Bool} {reg : List String}
    {nid : Nat} {ui : UI} {n : String} {ui1 : UI} {inst : Interp} {nid1 : Nat}
    (hl : interp_lookup reg nid ui n = some (ui1, inst, nid1)) :
    set_top_level_interpreter initOk reg nid ui n =
      (if inst.inited then
        (none, { finishSwitch ui1 inst.id with topLevelId := some inst.id }, nid1)
      else if initOk n then
        (none,
         { finishSwitch
             { ui1 with interps := updateInst ui1.interps inst.id (initInterp true) }
             inst.id
           with topLevelId := some inst.id },
         nid1)
      else
        (some (.initializationFailure n),
         { ui1 with interps := discardById ui1.interps inst.id }, nid)) := by
  unfold set_top_level_interpreter
  rw [hl]

theorem interp_lookup_cases {reg : List String} {nid : Nat} {ui : UI}
    {n : String} {ui1 : UI} {inst : Interp} {nid1 : Nat}
    (h : interp_lookup reg nid ui n = some (ui1, inst, nid1)) :
    (findByName ui.interps n = some inst ∧ ui1 = ui ∧ nid1 = nid) ∨
    (findByName ui.interps n = none ∧ n ∈ reg ∧ inst = freshInterp nid n ∧
      ui1 = { ui with interps := ui.interps ++ [freshInterp nid n] } ∧
      nid1 = nid + 1) := by
  unfold interp_lookup at h
  cases hf : findByName ui.interps n with
  | some i =>
      rw [hf] at h
      have h' : ui = ui1 ∧ i = inst ∧ nid = nid1 := by simpa using h
      obtain ⟨e1, e2, e3⟩ := h'
      exact Or.inl ⟨congrArg some e2, e1.symm, e3.symm⟩
  | none =>
      rw [hf] at h
      by_cases hn : n ∈ reg
      · rw [if_pos hn] at h
        have h' : { ui with interps := ui.interps ++ [freshInterp nid n] } = ui1 ∧
            freshInterp nid n = inst ∧ nid + 1 = nid1 := by simpa using h
        obtain ⟨e1, e2, e3⟩ := h'
        exact Or.inr ⟨rfl, hn, e2.symm, e1.symm, e3.symm⟩
      · rw [if_neg hn] at h
        cases h

/-- C2: for a fixed session, two successive calls of `interp_lookup` with the
same name return the identical instance: the second call finds the memoized
instance, changes nothing, allocates nothing, and performs no factory
construction. -/
theorem interp_lookup_memoized (reg : List String) (nid : Nat) (ui : UI)
    (n : String) {ui1 : UI} {inst : Interp} {nid1 : Nat}
    (h : interp_lookup reg nid ui n = some (ui1, inst, nid1)) :
    interp_lookup reg nid1 ui1 n = some (ui1, inst, nid1) := by
  rcases interp_lookup_cases h with ⟨hf, rfl, rfl⟩ | ⟨hf, hn, rfl, rfl, rfl⟩
  · unfold interp_lookup
    rw [hf]
  · unfold interp_lookup
    have hx : findByName (ui.interps ++ [freshInterp nid n]) n =
        some (freshInterp nid n) := findByName_append_singleton hf rfl
    simp only []
    rw [hx]

/-- Witness for C2 at a concrete input: looking up "console" in an empty
session creates the instance; looking it up again returns the same one. -/
theorem interp_lookup_memoized_witness :
    interp_lookup ["console"] 0 emptyUI "console" =
      some ({ interps := [freshInterp 0 "console"], currentId := none,
              topLevelId := none }, freshInterp 0 "console", 1) ∧
    interp_lookup ["console"] 1
        { interps := [freshInterp 0 "console"], currentId := none,
          topLevelId := none } "console" =
      some ({ interps := [freshInterp 0 "console"], currentId := none,
              topLevelId := none }, freshInterp 0 "console", 1) :=
  ⟨by decide, interp_lookup_memoized ["console"] 0 emptyUI "console" (by decide)⟩

/-- C6: for a name with no instance yet, lookup creates and returns a new,
uninitialized instance exactly when the name is in the registry, and yields
NULL — surfaced by the switch operations as `unknownFrontEndType` — when no
factory is registered for it. -/
theorem interp_lookup_create_iff_registered (initOk : String → Bool)
    {reg : List String} {nid : Nat} {ui : UI} {n : String}
    (hnew : findByName ui.interps n = none) :
    (n ∈ reg →
      interp_lookup reg nid ui n =
        some ({ ui with interps := ui.interps ++ [freshInterp nid n] },
              freshInterp nid n, nid + 1) ∧
      (freshInterp nid n).inited = false ∧ (freshInterp nid n).initCount = 0) ∧
    (n ∉ reg →
      interp_lookup reg nid ui n = none ∧
      (set_interp initOk reg nid ui n).1 = some (.unknownFrontEndType n)) := by
  constructor
  · intro hn
    refine ⟨?_, rfl, rfl⟩
    unfold interp_lookup
    rw [hnew, if_pos hn]
  · intro hn
    have hl : interp_lookup reg nid ui n = none := by
      unfold interp_lookup
      rw [hnew, if_neg hn]
    refine ⟨hl, ?_⟩
    unfold set_interp
    rw [hl]

/-- Witness for C6 at concrete inputs: with only "console" registered,
looking up "console" in an empty session creates a fresh uninitialized
instance, and looking up "tui" fails with `unknownFrontEndType`. -/
theorem interp_lookup_create_iff_registered_witness :
    findByName emptyUI.interps "console" = none ∧
    (interp_lookup ["console"] 0 emptyUI "console" =
        some ({ interps := [freshInterp 0 "console"], currentId := none,
                topLevelId := none }, freshInterp 0 "console", 1) ∧
      (freshInterp 0 "console").inited = false ∧
      (freshInterp 0 "console").initCount = 0) ∧
    (interp_lookup ["console"] 0 emptyUI "tui" = none ∧
      (set_interp (fun _ => true) ["console"] 0 emptyUI "tui").1 =
        some (.unknownFrontEndType "tui")) :=
  ⟨by decide,
   (interp_lookup_create_iff_registered (fun _ => true) (by decide)).1 (by decide),
   (interp_lookup_create_iff_registered (fun _ => true) (by decide)).2 (by decide)⟩

theorem discard_append_fresh {l : List Interp} {nid : Nat}
    (hb : ∀ i ∈ l, i.id < nid) (n : String) :
    discardById (l ++ [freshInterp nid n]) nid = l := by
  unfold discardById
  rw [List.filter_append]
  have h1 : l.filter (fun i => i.id != nid) = l :=
    List.filter_eq_self.mpr (fun i hi => by
      simp [bne_iff_ne, Nat.ne_of_lt (hb i hi)])
  have h2 : ([freshInterp nid n]).filter (fun i => i.id != nid) = [] := by
    simp [freshInterp]
  rw [h1, h2, List.append_nil]

/-- C5: `set_top_level_interpreter` with a name unknown to the registry, or
whose freshly created instance fails to initialize, signals an error and
leaves the session unchanged: current, top-level and the instance
collection are as before the call. -/
theorem set_top_level_interpreter_error_unchanged (initOk : String → Bool)
    {reg : List String} {nid : Nat} {ui : UI} {n : String}
    (hb : ∀ i ∈ ui.interps, i.id < nid)
    (hnew : findByName ui.interps n = none) :
    (n ∉ reg →
      set_top_level_interpreter initOk reg nid ui n =
        (some (.unknownFrontEndType n), ui, nid)) ∧
    (n ∈ reg → initOk n = false →
      set_top_level_interpreter initOk reg nid ui n =
        (some (.initializationFailure n), ui, nid)) := by
  constructor
  · intro hn
    unfold set_top_level_interpreter interp_lookup
    rw [hnew, if_neg hn]
  · intro hn hfail
    have hl : interp_lookup reg nid ui n =
        some ({ ui with interps := ui.interps ++ [freshInterp nid n] },
              freshInterp nid n, nid + 1) := by
      unfold interp_lookup
      rw [hnew, if_pos hn]
    have hd : discardById (ui.interps ++ [freshInterp nid n]) nid = ui.interps :=
      discard_append_fresh hb n
    rw [set_top_level_of_lookup hl, if_neg (by simp [freshInterp]),
        if_neg (by simp [hfail])]
    simp only [freshInterp] at hd ⊢
    rw [hd]

/-- Witness for C5 at concrete inputs: an empty session, registry
containing only "console": setting top level to the unregistered "tui"
errors and changes nothing; with `init` failing for every name, setting top
level to "console" errors and changes nothing. -/
theorem set_top_level_interpreter_error_unchanged_witness :
    (∀ i ∈ emptyUI.interps, i.id < 0) ∧
    findByName emptyUI.interps "tui" = none ∧
    set_top_level_interpreter (fun _ => false) ["console"] 0 emptyUI "tui" =
      (some (.unknownFrontEndType "tui"), emptyUI, 0) ∧
    set_top_level_interpreter (fun _ => false) ["console"] 0 emptyUI "console" =
      (some (.initializationFailure "console"), emptyUI, 0) :=
  ⟨by decide, by decide,
   (set_top_level_interpreter_error_unchanged (fun _ => false) (by decide)
      (by decide)).1 (by decide),
   (set_top_level_interpreter_error_unchanged (fun _ => false) (by decide)
      (by decide)).2 (by decide) (by decide)⟩

/-- C1: a single call of a notification function for event kind `k`
appends exactly one `k` to the hook-invocation log of every instantiated
front-end of every session — current or not — without touching identity or
name, leaves every other event count unchanged, and creates no session and
no instance, so a front-end never instantiated receives no hook call. -/
theorem interps_notify_broadcasts_once (k : EventKind) (s : State) :
    (interps_notify k s).uis.length = s.uis.length ∧
    (∀ j m : Nat,
      (interps_notify k s).uis[j]?.bind (fun (u : UI) => u.interps[m]?) =
      (s.uis[j]?.bind (fun (u : UI) => u.interps[m]?)).map (notifyInterp k)) ∧
    (∀ i : Interp,
      (notifyInterp k i).id = i.id ∧ (notifyInterp k i).name = i.name ∧
      (notifyInterp k i).events.count k = i.events.count k + 1 ∧
      ∀ k2, k2 ≠ k → (notifyInterp k i).events.count k2 = i.events.count k2) := by
  refine ⟨by simp [interps_notify], ?_, ?_⟩
  · intro j m
    cases h : s.uis[j]? with
    | none => simp [interps_notify, List.getElem?_map, h]
    | some u => simp [interps_notify, List.getElem?_map, h]
  · intro i
    refine ⟨rfl, rfl, ?_, ?_⟩
    · simp [notifyInterp, List.count_append]
    · intro k2 hk2
      simp [notifyInterp, List.count_append, List.count_singleton, hk2]

/-- C9: `current_interp_set_logging` invokes the `set_logging` hook of the
active session's current front-end only: any instance that is not the
current front-end of the active session — including every instance of every
other session — is left completely unchanged by the call. -/
theorem set_logging_current_only (s : State) (j m : Nat) (i : Interp)
    (hi : s.uis[j]?.bind (fun u => u.interps[m]?) = some i)
    (hnc : j = s.activeUi →
      s.uis[j]?.bind (fun u => u.currentId) ≠ some i.id) :
    (current_interp_set_logging s).uis[j]?.bind (fun u => u.interps[m]?) =
      some i := by
  cases ha : s.uis[s.activeUi]? with
  | none =>
      unfold current_interp_set_logging
      rw [ha]
      exact hi
  | some u =>
      unfold current_interp_set_logging
      rw [ha]
      by_cases hj : j = s.activeUi
      · rw [hj] at hi hnc ⊢
        have hlt : s.activeUi < s.uis.length :=
          (List.getElem?_eq_some.mp ha).1
        have hset : (s.uis.set s.activeUi (uiSetLogging u))[s.activeUi]? =
            some (uiSetLogging u) := List.getElem?_set_eq_of_lt _ hlt
        have hi' : u.interps[m]? = some i := by simpa [ha] using hi
        rw [hset]
        cases hc : u.currentId with
        | none => simp [uiSetLogging, hc, hi']
        | some c =>
            have hne : c ≠ i.id := by
              intro hEq
              exact (by simpa [ha, hc, hEq] using hnc rfl)
            have hne' : i.id ≠ c := fun hEq => hne hEq.symm
            simp [uiSetLogging, hc, updateInst, List.getElem?_map, hi', hne']
      · have hset : (s.uis.set s.activeUi (uiSetLogging u))[j]? = s.uis[j]? :=
          List.getElem?_set_ne (fun hEq => hj hEq.symm)
        simp only [hset]
        exact hi

/-- Witness for C9 at a concrete input: in `sampleState`, the logging call
leaves the active session's non-current mi instance unchanged, and leaves
the other session's current instance unchanged as well. -/
theorem set_logging_current_only_witness :
    (sampleState.uis[0]?.bind (fun (u : UI) => u.interps[1]?) =
        some (freshInterp 1 "mi") ∧
      (current_interp_set_logging sampleState).uis[0]?.bind
        (fun (u : UI) => u.interps[1]?) = some (freshInterp 1 "mi")) ∧
    (sampleState.uis[1]?.bind (fun (u : UI) => u.interps[0]?) =
        some (resumeInterp (initInterp true (freshInterp 2 "console"))) ∧
      (current_interp_set_logging sampleState).uis[1]?.bind
        (fun (u : UI) => u.interps[0]?) =
        some (resumeInterp (initInterp true (freshInterp 2 "console")))) :=
  ⟨⟨by decide, set_logging_current_only sampleState 0 1 _ (by decide) (by decide)⟩,
   ⟨by decide, set_logging_current_only sampleState 1 0 _ (by decide) (by decide)⟩⟩

/-! Preservation of the session invariant by every operation. -/

theorem currentOkB_iff (ui : UI) : currentOkB ui = true ↔
    ∀ c, ui.currentId = some c →
      ∃ i, i ∈ ui.interps ∧ i.id = c ∧ i.inited = true := by
  cases h : ui.currentId with
  | none => simp [currentOkB, h]
  | some c =>
      simp [currentOkB, h, List.any_eq_true, Bool.and_eq_true, beq_iff_eq]

theorem nodup_append_singleton {α : Type} {l : List α} {a : α}
    (h : l.Nodup) (ha : a ∉ l) : (l ++ [a]).Nodup := by
  induction l with
  | nil => simp
  | cons b t ih =>
      rcases List.nodup_cons.mp h with ⟨hb, ht⟩
      have ha' : a ∉ t := fun hx => ha (List.mem_cons_of_mem _ hx)
      have hba : b ≠ a := fun hEq => ha (hEq ▸ List.mem_cons_self _ _)
      rw [List.cons_append]
      refine List.nodup_cons.mpr ⟨?_, ih ht ha'⟩
      intro hmem
      rcases List.mem_append.mp hmem with h1 | h1
      · exact hb h1
      · exact hba (by simpa using h1)

theorem mem_updateInst_nodup {l : List Interp}
    (hid : (l.map (fun i => i.id)).Nodup) {inst : Interp} (hm : inst ∈ l)
    (f : Interp → Interp) {j : Interp} (hj : j ∈ updateInst l inst.id f) :
    j = f inst ∨ (j ∈ l ∧ j.id ≠ inst.id) := by
  rcases exists_of_mem_updateInst hj with ⟨i, hi, rfl⟩
  by_cases h : i.id = inst.id
  · left
    rw [if_pos h, eq_of_mem_of_id_nodup hid hi hm h]
  · right
    rw [if_neg h]
    exact ⟨hi, h⟩

theorem set_interp_of_lookup_none {initOk : String → Bool} {reg : List String}
    {nid : Nat} {ui : UI} {n : String}
    (hl : interp_lookup reg nid ui n = none) :
    set_interp initOk reg nid ui n =
      (some (.unknownFrontEndType n), ui, nid, none) := by
  unfold set_interp
  rw [hl]

theorem set_top_level_of_lookup_none {initOk : String → Bool}
    {reg : List String} {nid : Nat} {ui : UI} {n : String}
    (hl : interp_lookup reg nid ui n = none) :
    set_top_level_interpreter initOk reg nid ui n =
      (some (.unknownFrontEndType n), ui, nid) := by
  unfold set_top_level_interpreter
  rw [hl]

theorem map_attr_comp {β : Type} (g : Interp → β) (f : Interp → Interp)
    (hf : ∀ i, g (f i) = g i) (l : List Interp) :
    (l.map f).map g = l.map g := by
  induction l with
  | nil => rfl
  | cons a t ih => simp [List.map_cons, hf, ih]

theorem inv_interp_lookup {reg : List String} {nid : Nat} {ui : UI}
    {n : String} {ui1 : UI} {inst : Interp} {nid1 : Nat} (hInv : Inv nid ui)
    (h : interp_lookup reg nid ui n = some (ui1, inst, nid1)) :
    Inv nid1 ui1 ∧ nid ≤ nid1 ∧ inst ∈ ui1.interps ∧ inst.name = n ∧
    ui1.currentId = ui.currentId ∧
    (∀ i ∈ ui.interps, i ∈ ui1.interps) := by
  obtain ⟨hid, hname, hb, hinit, hcur, hres⟩ := hInv
  rcases interp_lookup_cases h with ⟨hf, rfl, rfl⟩ | ⟨hf, hn, rfl, rfl, rfl⟩
  · exact ⟨⟨hid, hname, hb, hinit, hcur, hres⟩, Nat.le_refl _,
      (findByName_some hf).1, (findByName_some hf).2, rfl, fun i hi => hi⟩
  · refine ⟨⟨?_, ?_, ?_, ?_, ?_, ?_⟩, Nat.le_succ _,
      List.mem_append_right _ (by simp), rfl, rfl,
      fun i hi => List.mem_append_left _ hi⟩
    · rw [List.map_append]
      refine nodup_append_singleton hid ?_
      intro hmem
      rcases List.mem_map.mp hmem with ⟨i, hi, hEq⟩
      exact absurd hEq (Nat.ne_of_lt (hb i hi))
    · rw [List.map_append]
      refine nodup_append_singleton hname ?_
      intro hmem
      rcases List.mem_map.mp hmem with ⟨i, hi, hEq⟩
      exact (findByName_none.mp hf i hi) hEq
    · intro i hi
      rcases List.mem_append.mp hi with h1 | h1
      · exact Nat.lt_succ_of_lt (hb i h1)
      · have hEq : i = freshInterp nid n := by simpa using h1
        rw [hEq]
        exact Nat.lt_succ_self nid
    · intro i hi
      rcases List.mem_append.mp hi with h1 | h1
      · exact hinit i h1
      · have hEq : i = freshInterp nid n := by simpa using h1
        rw [hEq]
        exact ⟨by simp [freshInterp], by simp [freshInterp]⟩
    · rw [currentOkB_iff]
      intro c hc
      rcases (currentOkB_iff ui).mp hcur c hc with ⟨i, hi, h1, h2⟩
      exact ⟨i, List.mem_append_left _ hi, h1, h2⟩
    · intro i hi hr
      rcases List.mem_append.mp hi with h1 | h1
      · exact hres i h1 hr
      · have hEq : i = freshInterp nid n := by simpa using h1
        rw [hEq] at hr
        simp [freshInterp] at hr

theorem mem_finishSwitch_decomp {ui : UI} {cid : Nat} {j : Interp}
    (hj : j ∈ (finishSwitch ui cid).interps) :
    ∃ i ∈ ui.interps, j.id = i.id ∧ j.name = i.name ∧ j.inited = i.inited ∧
      j.initCount = i.initCount ∧ j.initFlag = i.initFlag ∧
      (j.resumed = true → j.id = cid ∨
        (i.resumed = true ∧ ∀ c, ui.currentId = some c → i.id ≠ c)) := by
  cases hcur : ui.currentId with
  | none =>
      have hj' : j ∈ updateInst ui.interps cid resumeInterp := by
        simpa [finishSwitch, hcur] using hj
      rcases exists_of_mem_updateInst hj' with ⟨i, hi, rfl⟩
      refine ⟨i, hi, ?_⟩
      by_cases hc : i.id = cid
      · rw [if_pos hc]
        exact ⟨hc.symm ▸ rfl, rfl, rfl, rfl, rfl,
          fun _ => Or.inl hc⟩
      · rw [if_neg hc]
        exact ⟨rfl, rfl, rfl, rfl, rfl,
          fun hr => Or.inr ⟨hr, fun c hEq => by cases hEq⟩⟩
  | some c =>
      have hj' : j ∈ updateInst (updateInst ui.interps c suspendInterp)
          cid resumeInterp := by
        simpa [finishSwitch, hcur] using hj
      rcases exists_of_mem_updateInst hj' with ⟨i1, hi1, rfl⟩
      rcases exists_of_mem_updateInst hi1 with ⟨i, hi, rfl⟩
      refine ⟨i, hi, ?_⟩
      by_cases hic : i.id = c
      · rw [if_pos hic]
        by_cases hrc : (suspendInterp i).id = cid
        · rw [if_pos hrc]
          exact ⟨hrc.symm ▸ rfl, rfl, rfl, rfl, rfl, fun _ => Or.inl hrc⟩
        · rw [if_neg hrc]
          exact ⟨rfl, rfl, rfl, rfl, rfl, fun hr => by cases hr⟩
      · rw [if_neg hic]
        by_cases hrc : i.id = cid
        · rw [if_pos hrc]
          exact ⟨hrc.symm ▸ rfl, rfl, rfl, rfl, rfl, fun _ => Or.inl hrc⟩
        · rw [if_neg hrc]
          refine ⟨rfl, rfl, rfl, rfl, rfl, fun hr => Or.inr ⟨hr, ?_⟩⟩
          intro c2 hc2
          injection hc2 with h2
          rw [← h2]
          exact hic

theorem finishSwitch_forward {ui : UI} (cid : Nat) {i : Interp}
    (hi : i ∈ ui.interps) :
    ∃ j ∈ (finishSwitch ui cid).interps, j.id = i.id ∧ j.name = i.name ∧
      j.inited = i.inited ∧ j.initCount = i.initCount ∧
      j.initFlag = i.initFlag := by
  cases hcur : ui.currentId with
  | none =>
      have h1 := mem_updateInst_of_mem hi cid resumeInterp
      by_cases hc : i.id = cid
      · rw [if_pos hc] at h1
        exact ⟨resumeInterp i, by simpa [finishSwitch, hcur] using h1,
          rfl, rfl, rfl, rfl, rfl⟩
      · rw [if_neg hc] at h1
        exact ⟨i, by simpa [finishSwitch, hcur] using h1, rfl, rfl, rfl, rfl, rfl⟩
  | some c =>
      by_cases hic : i.id = c
      · subst hic
        have h1 := mem_updateInst_of_mem hi i.id suspendInterp
        rw [if_pos rfl] at h1
        have h2 := mem_updateInst_of_mem h1 cid resumeInterp
        by_cases hrc : (suspendInterp i).id = cid
        · rw [if_pos hrc] at h2
          exact ⟨resumeInterp (suspendInterp i),
            by simpa [finishSwitch, hcur] using h2, rfl, rfl, rfl, rfl, rfl⟩
        · rw [if_neg hrc] at h2
          exact ⟨suspendInterp i, by simpa [finishSwitch, hcur] using h2,
            rfl, rfl, rfl, rfl, rfl⟩
      · have h1 := mem_updateInst_of_mem hi c suspendInterp
        rw [if_neg hic] at h1
        have h2 := mem_updateInst_of_mem h1 cid resumeInterp
        by_cases hrc : i.id = cid
        · rw [if_pos hrc] at h2
          exact ⟨resumeInterp i, by simpa [finishSwitch, hcur] using h2,
            rfl, rfl, rfl, rfl, rfl⟩
        · rw [if_neg hrc] at h2
          exact ⟨i, by simpa [finishSwitch, hcur] using h2, rfl, rfl, rfl, rfl, rfl⟩

theorem finishSwitch_current {ui : UI} {cid : Nat} {i : Interp}
    (hi : i ∈ ui.interps) (hidc : i.id = cid) :
    ∃ j ∈ (finishSwitch ui cid).interps, j.id = cid ∧ j.name = i.name ∧
      j.inited = i.inited ∧ j.initCount = i.initCount ∧
      j.initFlag = i.initFlag ∧ j.resumed = true ∧
      j.resumeCount = i.resumeCount + 1 := by
  cases hcur : ui.currentId with
  | none =>
      have h1 := mem_updateInst_of_mem hi cid resumeInterp
      rw [if_pos hidc] at h1
      exact ⟨resumeInterp i, by simpa [finishSwitch, hcur] using h1,
        hidc, rfl, rfl, rfl, rfl, rfl, rfl⟩
  | some c =>
      by_cases hic : i.id = c
      · subst hic
        have h1 := mem_updateInst_of_mem hi i.id suspendInterp
        rw [if_pos rfl] at h1
        have h2 := mem_updateInst_of_mem h1 cid resumeInterp
        rw [if_pos (show (suspendInterp i).id = cid from hidc)] at h2
        exact ⟨resumeInterp (suspendInterp i),
          by simpa [finishSwitch, hcur] using h2,
          hidc, rfl, rfl, rfl, rfl, rfl, rfl⟩
      · have h1 := mem_updateInst_of_mem hi c suspendInterp
        rw [if_neg hic] at h1
        have h2 := mem_updateInst_of_mem h1 cid resumeInterp
        rw [if_pos hidc] at h2
        exact ⟨resumeInterp i, by simpa [finishSwitch, hcur] using h2,
          hidc, rfl, rfl, rfl, rfl, rfl, rfl⟩

theorem finishSwitch_suspends {ui : UI} {cid c : Nat}
    (hcur : ui.currentId = some c) (hne : c ≠ cid) {i : Interp}
    (hi : i ∈ ui.interps) (hic : i.id = c) :
    ∃ j ∈ (finishSwitch ui cid).interps, j.id = c ∧
      j.suspendCount = i.suspendCount + 1 ∧ j.resumed = false := by
  have h1 := mem_updateInst_of_mem hi c suspendInterp
  rw [if_pos hic] at h1
  have h2 := mem_updateInst_of_mem h1 cid resumeInterp
  have hnc : (suspendInterp i).id ≠ cid := by
    show i.id ≠ cid
    rw [hic]
    exact hne
  rw [if_neg hnc] at h2
  exact ⟨suspendInterp i, by simpa [finishSwitch, hcur] using h2, hic, rfl, rfl⟩

theorem inv_finishSwitch {nid : Nat} {ui : UI} (hInv : Inv nid ui) {cid : Nat}
    (hex : ∃ i ∈ ui.interps, i.id = cid ∧ i.inited = true) :
    Inv nid (finishSwitch ui cid) := by
  obtain ⟨hid, hname, hb, hinit, hcur, hres⟩ := hInv
  obtain ⟨i0, hi0, hi0id, hi0init⟩ := hex
  have hids : (finishSwitch ui cid).interps.map (fun i => i.id) =
      ui.interps.map (fun i => i.id) := by
    cases hcur2 : ui.currentId with
    | none =>
        simp only [finishSwitch, hcur2]
        exact updateInst_map_attr resumeInterp (fun i => i.id) (fun i => rfl)
    | some c =>
        simp only [finishSwitch, hcur2]
        rw [updateInst_map_attr resumeInterp (fun i => i.id) (fun i => rfl),
          updateInst_map_attr suspendInterp (fun i => i.id) (fun i => rfl)]
  have hnames : (finishSwitch ui cid).interps.map (fun i => i.name) =
      ui.interps.map (fun i => i.name) := by
    cases hcur2 : ui.currentId with
    | none =>
        simp only [finishSwitch, hcur2]
        exact updateInst_map_attr resumeInterp (fun i => i.name) (fun i => rfl)
    | some c =>
        simp only [finishSwitch, hcur2]
        rw [updateInst_map_attr resumeInterp (fun i => i.name) (fun i => rfl),
          updateInst_map_attr suspendInterp (fun i => i.name) (fun i => rfl)]
  refine ⟨?_, ?_, ?_, ?_, ?_, ?_⟩
  · rw [hids]
    exact hid
  · rw [hnames]
    exact hname
  · intro j hj
    rcases mem_finishSwitch_decomp hj with ⟨i, hi, hjid, _, _, _, _, _⟩
    rw [hjid]
    exact hb i hi
  · intro j hj
    rcases mem_finishSwitch_decomp hj with ⟨i, hi, _, _, hjin, hjc, _, _⟩
    rw [hjin, hjc]
    exact hinit i hi
  · rw [currentOkB_iff]
    intro c hc
    have hc2 : cid = c := by
      injection hc
    rcases finishSwitch_current hi0 hi0id with
      ⟨j, hj, hjid, _, hjin, _, _, _, _⟩
    refine ⟨j, hj, by rw [hjid, hc2], by rw [hjin, hi0init]⟩
  · intro j hj hr
    rcases mem_finishSwitch_decomp hj with ⟨i, hi, hjid, _, _, _, _, hrc⟩
    rcases hrc hr with h1 | ⟨h1, h2⟩
    · show some cid = some j.id
      rw [h1]
    · exact absurd (hres i hi h1) (fun hEq => h2 i.id hEq rfl)

theorem inv_discard {nid : Nat} {ui : UI} (hInv : Inv nid ui) {id0 : Nat}
    (hno : ∀ i ∈ ui.interps, i.id = id0 → i.inited = false) :
    Inv nid { ui with interps := discardById ui.interps id0 } := by
  obtain ⟨hid, hname, hb, hinit, hcur, hres⟩ := hInv
  have hsub : ∀ i ∈ discardById ui.interps id0, i ∈ ui.interps :=
    fun i hi => (List.mem_filter.mp hi).1
  have hsubl : List.Sublist (discardById ui.interps id0) ui.interps :=
    List.filter_sublist _
  refine ⟨?_, ?_, ?_, ?_, ?_, ?_⟩
  · exact List.Nodup.sublist (List.Sublist.map _ hsubl) hid
  · exact List.Nodup.sublist (List.Sublist.map _ hsubl) hname
  · exact fun i hi => hb i (hsub i hi)
  · exact fun i hi => hinit i (hsub i hi)
  · rw [currentOkB_iff]
    intro c hc
    rcases (currentOkB_iff ui).mp hcur c hc with ⟨i, hi, h1, h2⟩
    refine ⟨i, List.mem_filter.mpr ⟨hi, ?_⟩, h1, h2⟩
    simp only [bne_iff_ne, ne_eq, decide_eq_true_eq]
    intro hEq
    rw [hno i hi hEq] at h2
    cases h2
  · exact fun i hi hr => hres i (hsub i hi) hr

theorem inv_initUpd {nid : Nat} {ui : UI} (hInv : Inv nid ui) {inst : Interp}
    (hm : inst ∈ ui.interps) (hni : inst.inited = false) (tl : Bool) :
    Inv nid { ui with interps := updateInst ui.interps inst.id (initInterp tl) } ∧
    initInterp tl inst ∈ updateInst ui.interps inst.id (initInterp tl) := by
  obtain ⟨hid, hname, hb, hinit, hcur, hres⟩ := hInv
  have hcount : inst.initCount = 0 := by
    rcases hinit inst hm with ⟨hle, hiff⟩
    have h1 : inst.initCount ≠ 1 := fun h =>
      absurd (hiff.mpr h) (by simp [hni])
    omega
  have hmem2 : initInterp tl inst ∈ updateInst ui.interps inst.id (initInterp tl) := by
    have := mem_updateInst_of_mem hm inst.id (initInterp tl)
    rwa [if_pos rfl] at this
  refine ⟨⟨?_, ?_, ?_, ?_, ?_, ?_⟩, hmem2⟩
  · show ((updateInst ui.interps inst.id (initInterp tl)).map
      (fun i => i.id)).Nodup
    rw [updateInst_map_attr (initInterp tl) (fun i => i.id) (fun i => rfl)]
    exact hid
  · show ((updateInst ui.interps inst.id (initInterp tl)).map
      (fun i => i.name)).Nodup
    rw [updateInst_map_attr (initInterp tl) (fun i => i.name) (fun i => rfl)]
    exact hname
  · intro j hj
    rcases mem_updateInst_nodup hid hm (initInterp tl) hj with rfl | ⟨hjl, _⟩
    · exact hb inst hm
    · exact hb j hjl
  · intro j hj
    rcases mem_updateInst_nodup hid hm (initInterp tl) hj with rfl | ⟨hjl, _⟩
    · refine ⟨by simp [initInterp, hcount], by simp [initInterp, hcount]⟩
    · exact hinit j hjl
  · rw [currentOkB_iff]
    intro c hc
    rcases (currentOkB_iff ui).mp hcur c hc with ⟨i, hi, h1, h2⟩
    have hne : i.id ≠ inst.id := by
      intro hEq
      have : i = inst := eq_of_mem_of_id_nodup hid hi hm hEq
      rw [this] at h2
      rw [hni] at h2
      cases h2
    have := mem_updateInst_of_mem hi inst.id (initInterp tl)
    rw [if_neg hne] at this
    exact ⟨i, this, h1, h2⟩
  · intro j hj hr
    rcases mem_updateInst_nodup hid hm (initInterp tl) hj with rfl | ⟨hjl, _⟩
    · have hr2 : inst.resumed = true := hr
      exact hres inst hm hr2
    · exact hres j hjl hr

theorem inv_updateInst_benign {nid : Nat} {ui : UI} (hInv : Inv nid ui)
    (id0 : Nat) {f : Interp → Interp}
    (hfid : ∀ i, (f i).id = i.id) (hfname : ∀ i, (f i).name = i.name)
    (hfin : ∀ i, (f i).inited = i.inited)
    (hfc : ∀ i, (f i).initCount = i.initCount)
    (hfr : ∀ i, (f i).resumed = i.resumed) :
    Inv nid { ui with interps := updateInst ui.interps id0 f } := by
  obtain ⟨hid, hname, hb, hinit, hcur, hres⟩ := hInv
  refine ⟨?_, ?_, ?_, ?_, ?_, ?_⟩
  · show ((updateInst ui.interps id0 f).map (fun i => i.id)).Nodup
    rw [updateInst_map_attr f _ hfid]
    exact hid
  · show ((updateInst ui.interps id0 f).map (fun i => i.name)).Nodup
    rw [updateInst_map_attr f _ hfname]
    exact hname
  · intro j hj
    rcases exists_of_mem_updateInst hj with ⟨i, hi, rfl⟩
    by_cases h : i.id = id0
    · rw [if_pos h, hfid]
      exact hb i hi
    · rw [if_neg h]
      exact hb i hi
  · intro j hj
    rcases exists_of_mem_updateInst hj with ⟨i, hi, rfl⟩
    by_cases h : i.id = id0
    · rw [if_pos h, hfin, hfc]
      exact hinit i hi
    · rw [if_neg h]
      exact hinit i hi
  · rw [currentOkB_iff]
    intro c hc
    rcases (currentOkB_iff ui).mp hcur c hc with ⟨i, hi, h1, h2⟩
    refine ⟨_, mem_updateInst_of_mem hi id0 f, ?_, ?_⟩
    · by_cases h : i.id = id0
      · rw [if_pos h, hfid]
        exact h1
      · rw [if_neg h]
        exact h1
    · by_cases h : i.id = id0
      · rw [if_pos h, hfin]
        exact h2
      · rw [if_neg h]
        exact h2
  · intro j hj hr
    rcases exists_of_mem_updateInst hj with ⟨i, hi, rfl⟩
    by_cases h : i.id = id0
    · rw [if_pos h] at hr ⊢
      rw [hfr] at hr
      show ui.currentId = some (f i).id
      rw [hfid]
      exact hres i hi hr
    · rw [if_neg h] at hr ⊢
      exact hres i hi hr

theorem inv_map_benign {nid : Nat} {ui : UI} (hInv : Inv nid ui)
    {f : Interp → Interp}
    (hfid : ∀ i, (f i).id = i.id) (hfname : ∀ i, (f i).name = i.name)
    (hfin : ∀ i, (f i).inited = i.inited)
    (hfc : ∀ i, (f i).initCount = i.initCount)
    (hfr : ∀ i, (f i).resumed = i.resumed) :
    Inv nid { ui with interps := ui.interps.map f } := by
  obtain ⟨hid, hname, hb, hinit, hcur, hres⟩ := hInv
  refine ⟨?_, ?_, ?_, ?_, ?_, ?_⟩
  · show ((ui.interps.map f).map (fun i => i.id)).Nodup
    rw [map_attr_comp _ _ hfid]
    exact hid
  · show ((ui.interps.map f).map (fun i => i.name)).Nodup
    rw [map_attr_comp _ _ hfname]
    exact hname
  · intro j hj
    rcases List.mem_map.mp hj with ⟨i, hi, rfl⟩
    rw [hfid]
    exact hb i hi
  · intro j hj
    rcases List.mem_map.mp hj with ⟨i, hi, rfl⟩
    rw [hfin, hfc]
    exact hinit i hi
  · rw [currentOkB_iff]
    intro c hc
    rcases (currentOkB_iff ui).mp hcur c hc with ⟨i, hi, h1, h2⟩
    exact ⟨f i, List.mem_map_of_mem f hi, by rw [hfid]; exact h1,
      by rw [hfin]; exact h2⟩
  · intro j hj hr
    rcases List.mem_map.mp hj with ⟨i, hi, rfl⟩
    rw [hfr] at hr
    show ui.currentId = some (f i).id
    rw [hfid]
    exact hres i hi hr

theorem inv_set_interp {initOk : String → Bool} {reg : List String}
    {nid : Nat} {ui : UI} {n : String} (hInv : Inv nid ui) :
    Inv (set_interp initOk reg nid ui n).2.2.1 (set_interp initOk reg nid ui n).2.1 ∧
    nid ≤ (set_interp initOk reg nid ui n).2.2.1 := by
  cases hlk : interp_lookup reg nid ui n with
  | none =>
      rw [set_interp_of_lookup_none hlk]
      exact ⟨hInv, Nat.le_refl _⟩
  | some t =>
      obtain ⟨ui1, inst, nid1⟩ := t
      rw [set_interp_of_lookup hlk]
      obtain ⟨hInv1, hle1, hmem, hnameI, hcur1, hold⟩ := inv_interp_lookup hInv hlk
      by_cases hin : inst.inited = true
      · rw [if_pos hin]
        exact ⟨inv_finishSwitch hInv1 ⟨inst, hmem, rfl, hin⟩, hle1⟩
      · rw [if_neg hin]
        have hni : inst.inited = false := by
          simpa using hin
        by_cases hok : initOk n = true
        · rw [if_pos hok]
          obtain ⟨hInv2, hm2⟩ := inv_initUpd hInv1 hmem hni false
          exact ⟨inv_finishSwitch hInv2 ⟨_, hm2, rfl, rfl⟩, hle1⟩
        · rw [if_neg hok]
          rcases interp_lookup_cases hlk with ⟨hf, rfl, rfl⟩ | ⟨hf, hn2, rfl, rfl, rfl⟩
          · refine ⟨inv_discard hInv ?_, Nat.le_refl _⟩
            intro i hi hidEq
            rw [eq_of_mem_of_id_nodup hInv.1 hi (findByName_some hf).1 hidEq]
            exact hni
          · have hd : discardById (ui.interps ++ [freshInterp nid n]) nid =
                ui.interps := discard_append_fresh hInv.2.2.1 n
            constructor
            · have hd2 : discardById (ui.interps ++ [freshInterp nid n])
                  (freshInterp nid n).id = ui.interps := hd
              rw [hd2]
              exact hInv
            · exact Nat.le_refl _

theorem inv_set_top_level {initOk : String → Bool} {reg : List String}
    {nid : Nat} {ui : UI} {n : String} (hInv : Inv nid ui) :
    Inv (set_top_level_interpreter initOk reg nid ui n).2.2
      (set_top_level_interpreter initOk reg nid ui n).2.1 ∧
    nid ≤ (set_top_level_interpreter initOk reg nid ui n).2.2 := by
  cases hlk : interp_lookup reg nid ui n with
  | none =>
      rw [set_top_level_of_lookup_none hlk]
      exact ⟨hInv, Nat.le_refl _⟩
  | some t =>
      obtain ⟨ui1, inst, nid1⟩ := t
      rw [set_top_level_of_lookup hlk]
      obtain ⟨hInv1, hle1, hmem, hnameI, hcur1, hold⟩ := inv_interp_lookup hInv hlk
      by_cases hin : inst.inited = true
      · rw [if_pos hin]
        exact ⟨inv_finishSwitch hInv1 ⟨inst, hmem, rfl, hin⟩, hle1⟩
      · rw [if_neg hin]
        have hni : inst.inited = false := by
          simpa using hin
        by_cases hok : initOk n = true
        · rw [if_pos hok]
          obtain ⟨hInv2, hm2⟩ := inv_initUpd hInv1 hmem hni true
          exact ⟨inv_finishSwitch hInv2 ⟨_, hm2, rfl, rfl⟩, hle1⟩
        · rw [if_neg hok]
          rcases interp_lookup_cases hlk with ⟨hf, rfl, rfl⟩ | ⟨hf, hn2, rfl, rfl, rfl⟩
          · refine ⟨inv_discard hInv ?_, Nat.le_refl _⟩
            intro i hi hidEq
            rw [eq_of_mem_of_id_nodup hInv.1 hi (findByName_some hf).1 hidEq]
            exact hni
          · have hd : discardById (ui.interps ++ [freshInterp nid n]) nid =
                ui.interps := discard_append_fresh hInv.2.2.1 n
            constructor
            · have hd2 : discardById (ui.interps ++ [freshInterp nid n])
                  (freshInterp nid n).id = ui.interps := hd
              rw [hd2]
              exact hInv
            · exact Nat.le_refl _

theorem inv_uiSetLogging {nid : Nat} {ui : UI} (hInv : Inv nid ui) :
    Inv nid (uiSetLogging ui) := by
  cases hc : ui.currentId with
  | none =>
      have hEq : uiSetLogging ui = ui := by
        unfold uiSetLogging
        rw [hc]
      rw [hEq]
      exact hInv
  | some c =>
      have hEq : uiSetLogging ui =
          { ui with interps := updateInst ui.interps c logInterp } := by
        unfold uiSetLogging
        rw [hc]
      rw [hEq]
      exact inv_updateInst_benign hInv c (fun i => rfl) (fun i => rfl)
        (fun i => rfl) (fun i => rfl) (fun i => rfl)

theorem inv_stepUI (initOk : String → Bool) (reg : List String)
    (p : UI × Nat) (hInv : Inv p.2 p.1) (op : Op) :
    Inv (stepUI initOk reg p op).2 (stepUI initOk reg p op).1 ∧
    p.2 ≤ (stepUI initOk reg p op).2 := by
  obtain ⟨ui, nid⟩ := p
  cases op with
  | lookup n =>
      simp only [stepUI]
      cases hlk : interp_lookup reg nid ui n with
      | none => exact ⟨hInv, Nat.le_refl _⟩
      | some t =>
          obtain ⟨ui1, inst, nid1⟩ := t
          obtain ⟨h1, h2, _⟩ := inv_interp_lookup hInv hlk
          exact ⟨h1, h2⟩
  | switch n =>
      simp only [stepUI]
      exact inv_set_interp hInv
  | setTop n =>
      simp only [stepUI]
      exact inv_set_top_level hInv
  | notify k =>
      simp only [stepUI]
      exact ⟨inv_map_benign hInv (fun i => rfl) (fun i => rfl) (fun i => rfl)
        (fun i => rfl) (fun i => rfl), Nat.le_refl _⟩
  | setLogging =>
      simp only [stepUI]
      exact ⟨inv_uiSetLogging hInv, Nat.le_refl _⟩

theorem inv_runOps (initOk : String → Bool) (reg : List String)
    (p : UI × Nat) (hInv : Inv p.2 p.1) (ops : List Op) :
    Inv (runOps initOk reg p ops).2 (runOps initOk reg p ops).1 ∧
    p.2 ≤ (runOps initOk reg p ops).2 := by
  induction ops generalizing p with
  | nil => exact ⟨hInv, Nat.le_refl _⟩
  | cons op rest ih =>
      have hstep := inv_stepUI initOk reg p hInv op
      have hrest := ih (stepUI initOk reg p op) hstep.1
      exact ⟨hrest.1, Nat.le_trans hstep.2 hrest.2⟩

/-! Evolution of single instances across operation sequences. -/

theorem evol_refl (i : Interp) : Evol i i :=
  ⟨rfl, rfl, fun h => h, Nat.le_refl _⟩

theorem evol_trans {i0 i1 i2 : Interp} (h1 : Evol i0 i1) (h2 : Evol i1 i2) :
    Evol i0 i2 :=
  ⟨h2.1.trans h1.1, h2.2.1.trans h1.2.1, fun h => h2.2.2.1 (h1.2.2.1 h),
   Nat.le_trans h1.2.2.2 h2.2.2.2⟩

theorem lookup_evol {reg : List String} {nid : Nat} {ui : UI} {n : String}
    {ui1 : UI} {inst : Interp} {nid1 : Nat}
    (h : interp_lookup reg nid ui n = some (ui1, inst, nid1)) :
    ∀ j ∈ ui1.interps, j ∈ ui.interps ∨ nid ≤ j.id := by
  rcases interp_lookup_cases h with ⟨hf, rfl, rfl⟩ | ⟨hf, hn, rfl, rfl, rfl⟩
  · exact fun j hj => Or.inl hj
  · intro j hj
    rcases List.mem_append.mp hj with h1 | h1
    · exact Or.inl h1
    · right
      have hEq : j = freshInterp nid n := by simpa using h1
      rw [hEq]
      exact Nat.le_refl _

theorem initUpd_evol (l : List Interp) (id0 : Nat) (tl : Bool) :
    ∀ j ∈ updateInst l id0 (initInterp tl), ∃ i ∈ l, Evol i j := by
  intro j hj
  rcases exists_of_mem_updateInst hj with ⟨i, hi, rfl⟩
  by_cases h : i.id = id0
  · rw [if_pos h]
    exact ⟨i, hi, rfl, rfl, fun _ => rfl, Nat.le_succ _⟩
  · rw [if_neg h]
    exact ⟨i, hi, evol_refl i⟩

theorem finishSwitch_evol (ui : UI) (cid : Nat) :
    ∀ j ∈ (finishSwitch ui cid).interps, ∃ i ∈ ui.interps, Evol i j := by
  intro j hj
  rcases mem_finishSwitch_decomp hj with ⟨i, hi, hjid, hjname, hjin, hjc, _, _⟩
  refine ⟨i, hi, hjid, hjname, fun h => by rw [hjin]; exact h, ?_⟩
  rw [hjc]

theorem stepUI_evol (initOk : String → Bool) (reg : List String)
    (p : UI × Nat) (hInv : Inv p.2 p.1) (op : Op) :
    ∀ j ∈ (stepUI initOk reg p op).1.interps,
      (∃ i ∈ p.1.interps, Evol i j) ∨ p.2 ≤ j.id := by
  obtain ⟨ui, nid⟩ := p
  cases op with
  | lookup n =>
      simp only [stepUI]
      cases hlk : interp_lookup reg nid ui n with
      | none => exact fun j hj => Or.inl ⟨j, hj, evol_refl j⟩
      | some t =>
          obtain ⟨ui1, inst, nid1⟩ := t
          intro j hj
          rcases lookup_evol hlk j hj with h1 | h1
          · exact Or.inl ⟨j, h1, evol_refl j⟩
          · exact Or.inr h1
  | switch n =>
      simp only [stepUI]
      cases hlk : interp_lookup reg nid ui n with
      | none =>
          rw [set_interp_of_lookup_none hlk]
          exact fun j hj => Or.inl ⟨j, hj, evol_refl j⟩
      | some t =>
          obtain ⟨ui1, inst, nid1⟩ := t
          rw [set_interp_of_lookup hlk]
          by_cases hin : inst.inited = true
          · rw [if_pos hin]
            intro j hj
            rcases finishSwitch_evol ui1 inst.id j hj with ⟨i1, hi1, hev1⟩
            rcases lookup_evol hlk i1 hi1 with h1 | h1
            · exact Or.inl ⟨i1, h1, hev1⟩
            · exact Or.inr (Nat.le_trans h1 (Nat.le_of_eq hev1.1.symm))
          · rw [if_neg hin]
            by_cases hok : initOk n = true
            · rw [if_pos hok]
              intro j hj
              rcases finishSwitch_evol _ inst.id j hj with ⟨i1, hi1, hev1⟩
              rcases initUpd_evol ui1.interps inst.id false i1 hi1 with
                ⟨i2, hi2, hev2⟩
              rcases lookup_evol hlk i2 hi2 with h1 | h1
              · exact Or.inl ⟨i2, h1, evol_trans hev2 hev1⟩
              · refine Or.inr (Nat.le_trans h1 ?_)
                rw [(evol_trans hev2 hev1).1]
            · rw [if_neg hok]
              intro j hj
              have hj2 : j ∈ ui1.interps := (List.mem_filter.mp hj).1
              rcases lookup_evol hlk j hj2 with h1 | h1
              · exact Or.inl ⟨j, h1, evol_refl j⟩
              · exact Or.inr h1
  | setTop n =>
      simp only [stepUI]
      cases hlk : interp_lookup reg nid ui n with
      | none =>
          rw [set_top_level_of_lookup_none hlk]
          exact fun j hj => Or.inl ⟨j, hj, evol_refl j⟩
      | some t =>
          obtain ⟨ui1, inst, nid1⟩ := t
          rw [set_top_level_of_lookup hlk]
          by_cases hin : inst.inited = true
          · rw [if_pos hin]
            intro j hj
            rcases finishSwitch_evol ui1 inst.id j hj with ⟨i1, hi1, hev1⟩
            rcases lookup_evol hlk i1 hi1 with h1 | h1
            · exact Or.inl ⟨i1, h1, hev1⟩
            · exact Or.inr (Nat.le_trans h1 (Nat.le_of_eq hev1.1.symm))
          · rw [if_neg hin]
            by_cases hok : initOk n = true
            · rw [if_pos hok]
              intro j hj
              rcases finishSwitch_evol _ inst.id j hj with ⟨i1, hi1, hev1⟩
              rcases initUpd_evol ui1.interps inst.id true i1 hi1 with
                ⟨i2, hi2, hev2⟩
              rcases lookup_evol hlk i2 hi2 with h1 | h1
              · exact Or.inl ⟨i2, h1, evol_trans hev2 hev1⟩
              · refine Or.inr (Nat.le_trans h1 ?_)
                rw [(evol_trans hev2 hev1).1]
            · rw [if_neg hok]
              intro j hj
              have hj2 : j ∈ ui1.interps := (List.mem_filter.mp hj).1
              rcases lookup_evol hlk j hj2 with h1 | h1
              · exact Or.inl ⟨j, h1, evol_refl j⟩
              · exact Or.inr h1
  | notify k =>
      simp only [stepUI]
      intro j hj
      rcases List.mem_map.mp hj with ⟨i, hi, rfl⟩
      exact Or.inl ⟨i, hi, rfl, rfl, fun h => h, Nat.le_refl _⟩
  | setLogging =>
      simp only [stepUI]
      cases hc : ui.currentId with
      | none =>
          have hEq : uiSetLogging ui = ui := by
            unfold uiSetLogging
            rw [hc]
          rw [hEq]
          exact fun j hj => Or.inl ⟨j, hj, evol_refl j⟩
      | some c =>
          have hEq : uiSetLogging ui =
              { ui with interps := updateInst ui.interps c logInterp } := by
            unfold uiSetLogging
            rw [hc]
          rw [hEq]
          intro j hj
          rcases exists_of_mem_updateInst hj with ⟨i, hi, rfl⟩
          by_cases h : i.id = c
          · rw [if_pos h]
            exact Or.inl ⟨i, hi, rfl, rfl, fun h2 => h2, Nat.le_refl _⟩
          · rw [if_neg h]
            exact Or.inl ⟨i, hi, evol_refl i⟩

theorem runOps_evol (initOk : String → Bool) (reg : List String)
    (p : UI × Nat) (hInv : Inv p.2 p.1) (ops : List Op) :
    ∀ j ∈ (runOps initOk reg p ops).1.interps, j.id < p.2 →
      ∃ i ∈ p.1.interps, Evol i j := by
  induction ops generalizing p with
  | nil => exact fun j hj _ => ⟨j, hj, evol_refl j⟩
  | cons op rest ih =>
      intro j hj hlt
      have hInv1 := (inv_stepUI initOk reg p hInv op).1
      have hle := (inv_stepUI initOk reg p hInv op).2
      rcases ih (stepUI initOk reg p op) hInv1 j hj
        (Nat.lt_of_lt_of_le hlt hle) with ⟨mid, hmid, hevol⟩
      rcases stepUI_evol initOk reg p hInv op mid hmid with ⟨i, hi, hev0⟩ | hge
      · exact ⟨i, hi, evol_trans hev0 hevol⟩
      · rw [hevol.1] at hlt
        exact absurd hlt (Nat.not_lt.mpr hge)

/-- C7: over any sequence of lookup, set-top-level, switch, notify and
logging operations on a well-formed session, every instance has seen at
most one `init` invocation, and an instance that was initialized keeps the
same identity and stays initialized (the `inited` flag is never cleared)
while its `init` invocation count never decreases. -/
theorem init_at_most_once (initOk : String → Bool) (reg : List String)
    (ui : UI) (nid : Nat) (ops : List Op) (hInv : Inv nid ui) :
    (∀ j ∈ (runOps initOk reg (ui, nid) ops).1.interps, j.initCount ≤ 1) ∧
    (∀ i0 ∈ ui.interps, ∀ j ∈ (runOps initOk reg (ui, nid) ops).1.interps,
      j.id = i0.id →
        (i0.inited = true → j.inited = true) ∧
        i0.initCount ≤ j.initCount) := by
  constructor
  · intro j hj
    exact ((inv_runOps initOk reg (ui, nid) hInv ops).1.2.2.2.1 j hj).1
  · intro i0 hi0 j hj hideq
    have hlt : j.id < nid := by
      rw [hideq]
      exact hInv.2.2.1 i0 hi0
    rcases runOps_evol initOk reg (ui, nid) hInv ops j hj hlt with ⟨i, hi, hev⟩
    have hEq : i = i0 := by
      refine eq_of_mem_of_id_nodup hInv.1 hi hi0 ?_
      rw [← hev.1]
      exact hideq
    rw [hEq] at hev
    exact ⟨hev.2.2.1, hev.2.2.2⟩

/-- Witness for C7 at a concrete input: the empty session, registry
`console`/`mi`, a run that sets the console top level, switches to mi,
switches back to console and broadcasts an event. -/
theorem init_at_most_once_witness :
    Inv 0 emptyUI ∧
    ((∀ j ∈ (runOps (fun _ => true) ["console", "mi"] (emptyUI, 0)
        [Op.setTop "console", Op.switch "mi", Op.switch "console",
         Op.notify EventKind.newThread]).1.interps, j.initCount ≤ 1) ∧
     (∀ i0 ∈ emptyUI.interps,
      ∀ j ∈ (runOps (fun _ => true) ["console", "mi"] (emptyUI, 0)
        [Op.setTop "console", Op.switch "mi", Op.switch "console",
         Op.notify EventKind.newThread]).1.interps,
      j.id = i0.id →
        (i0.inited = true → j.inited = true) ∧
        i0.initCount ≤ j.initCount)) :=
  ⟨by decide,
   init_at_most_once (fun _ => true) ["console", "mi"] emptyUI 0
     [Op.setTop "console", Op.switch "mi", Op.switch "console",
      Op.notify EventKind.newThread] (by decide)⟩

/-- C8: after any sequence of operations on a well-formed session, the
session's current pointer — whenever set — refers to an initialized
instance present in the session's collection, and at most one instance of
the session is in the resumed state. -/
theorem current_inited_at_most_one_resumed (initOk : String → Bool)
    (reg : List String) (ui : UI) (nid : Nat) (ops : List Op)
    (hInv : Inv nid ui) :
    (∀ c, (runOps initOk reg (ui, nid) ops).1.currentId = some c →
      ∃ i ∈ (runOps initOk reg (ui, nid) ops).1.interps,
        i.id = c ∧ i.inited = true) ∧
    (∀ i ∈ (runOps initOk reg (ui, nid) ops).1.interps,
     ∀ j ∈ (runOps initOk reg (ui, nid) ops).1.interps,
        i.resumed = true → j.resumed = true → i = j) := by
  obtain ⟨hfin, _⟩ := inv_runOps initOk reg (ui, nid) hInv ops
  obtain ⟨hid, _, _, _, hcur, hres⟩ := hfin
  constructor
  · intro c hc
    rcases (currentOkB_iff _).mp hcur c hc with ⟨i, hi, h1, h2⟩
    exact ⟨i, hi, h1, h2⟩
  · intro i hi j hj hri hrj
    have h1 := hres i hi hri
    have h2 := hres j hj hrj
    have hEq : i.id = j.id := by
      rw [h1] at h2
      injection h2
    exact eq_of_mem_of_id_nodup hid hi hj hEq

/-- Witness for C8 at a concrete input: the empty session, registry
`console`/`mi`, a run that sets the console top level, switches to mi and
reconfigures logging. -/
theorem current_inited_at_most_one_resumed_witness :
    Inv 0 emptyUI ∧
    ((∀ c, (runOps (fun _ => true) ["console", "mi"] (emptyUI, 0)
        [Op.setTop "console", Op.switch "mi", Op.setLogging]).1.currentId =
          some c →
      ∃ i ∈ (runOps (fun _ => true) ["console", "mi"] (emptyUI, 0)
        [Op.setTop "console", Op.switch "mi", Op.setLogging]).1.interps,
        i.id = c ∧ i.inited = true) ∧
     (∀ i ∈ (runOps (fun _ => true) ["console", "mi"] (emptyUI, 0)
        [Op.setTop "console", Op.switch "mi", Op.setLogging]).1.interps,
      ∀ j ∈ (runOps (fun _ => true) ["console", "mi"] (emptyUI, 0)
        [Op.setTop "console", Op.switch "mi", Op.setLogging]).1.interps,
        i.resumed = true → j.resumed = true → i = j)) :=
  ⟨by decide,
   current_inited_at_most_one_resumed (fun _ => true) ["console", "mi"]
     emptyUI 0 [Op.setTop "console", Op.switch "mi", Op.setLogging]
     (by decide)⟩

/-- C3: for a name the lookup resolves (resolving or creating the
instance), a successful switch performs exactly the specified sequence: the
instance is initialized with the top-level flag false exactly when it was
not yet initialized, the previous current front-end (if any, and distinct)
receives one `suspend` and leaves the resumed state, the new instance
becomes current, receives one `resume` and ends resumed, and the call
returns the previous current front-end. -/
theorem set_interp_switch_sequence (initOk : String → Bool)
    (reg : List String) (nid : Nat) (ui : UI) (n : String) (ui1 : UI)
    (inst : Interp) (nid1 : Nat) (hInv : Inv nid ui)
    (hlk : interp_lookup reg nid ui n = some (ui1, inst, nid1))
    (hok : inst.inited = true ∨ initOk n = true) :
    ∃ ui2, set_interp initOk reg nid ui n = (none, ui2, nid1, ui.currentId) ∧
      ui2.currentId = some inst.id ∧
      (∃ i2 ∈ ui2.interps, i2.id = inst.id ∧ i2.inited = true ∧
        i2.resumed = true ∧ i2.resumeCount = inst.resumeCount + 1 ∧
        i2.initCount =
          (if inst.inited then inst.initCount else inst.initCount + 1) ∧
        i2.initFlag = (if inst.inited then inst.initFlag else some false)) ∧
      (∀ c, ui.currentId = some c → c ≠ inst.id →
        ∀ iold ∈ ui.interps, iold.id = c →
          ∃ i2 ∈ ui2.interps, i2.id = c ∧
            i2.suspendCount = iold.suspendCount + 1 ∧
            i2.resumed = false) := by
  obtain ⟨hInv1, hle1, hmem, hnameI, hcur1, hold⟩ := inv_interp_lookup hInv hlk
  by_cases hin : inst.inited = true
  · refine ⟨finishSwitch ui1 inst.id, ?_, rfl, ?_, ?_⟩
    · rw [set_interp_of_lookup hlk, if_pos hin]
    · rcases finishSwitch_current hmem rfl with
        ⟨i2, hi2, h2id, _, h2in, h2c, h2f, h2r, h2rc⟩
      refine ⟨i2, hi2, h2id, by rw [h2in]; exact hin, h2r, h2rc, ?_, ?_⟩
      · rw [h2c, if_pos hin]
      · rw [h2f, if_pos hin]
    · intro c hc hne iold hio hioid
      have hcu1 : ui1.currentId = some c := by
        rw [hcur1]
        exact hc
      have hne2 : c ≠ inst.id := hne
      rcases finishSwitch_suspends hcu1 hne2 (hold iold hio) hioid with
        ⟨i2, hi2, h2id, h2s, h2r⟩
      exact ⟨i2, hi2, h2id, h2s, h2r⟩
  · have hok2 : initOk n = true := hok.resolve_left hin
    have hni : inst.inited = false := by
      simpa using hin
    obtain ⟨hInv2, hm2⟩ := inv_initUpd hInv1 hmem hni false
    refine ⟨finishSwitch { ui1 with interps := updateInst ui1.interps inst.id (initInterp false) } inst.id, ?_, rfl, ?_, ?_⟩
    · rw [set_interp_of_lookup hlk, if_neg hin, if_pos hok2]
    · have hm2c : initInterp false inst ∈ ({ ui1 with interps := updateInst ui1.interps inst.id (initInterp false) } : UI).interps := hm2
      rcases finishSwitch_current hm2c rfl with
        ⟨i2, hi2, h2id, _, h2in, h2c, h2f, h2r, h2rc⟩
      refine ⟨i2, hi2, h2id, by rw [h2in]; rfl, h2r, h2rc, ?_, ?_⟩
      · rw [h2c, if_neg (by simp [hni]), show (initInterp false inst).initCount =
          inst.initCount + 1 from rfl]
      · rw [h2f, if_neg (by simp [hni]), show (initInterp false inst).initFlag =
          some false from rfl]
    · intro c hc hne iold hio hioid
      have hio1 : iold ∈ ui1.interps := hold iold hio
      have himg := mem_updateInst_of_mem hio1 inst.id (initInterp false)
      rw [if_neg (show iold.id ≠ inst.id by rw [hioid]; exact hne)] at himg
      have hcu2 : ({ ui1 with interps := updateInst ui1.interps inst.id (initInterp false) } : UI).currentId = some c := by
        show ui1.currentId = some c
        rw [hcur1]
        exact hc
      rcases finishSwitch_suspends hcu2 hne himg hioid with ⟨i2, hi2, h2id, h2s, h2r⟩
      exact ⟨i2, hi2, h2id, h2s, h2r⟩

/-- Witness for C3 at a concrete input: switching `sampleUI` (current:
console) to its instantiated but uninitialized mi interpreter initializes
mi with the top-level flag false, suspends the console, resumes mi, makes
it current, and returns the console as previous current. -/
theorem set_interp_switch_sequence_witness :
    Inv 2 sampleUI ∧
    interp_lookup ["console", "mi"] 2 sampleUI "mi" =
      some (sampleUI, freshInterp 1 "mi", 2) ∧
    (∃ ui2, set_interp (fun _ => true) ["console", "mi"] 2 sampleUI "mi" =
        (none, ui2, 2, sampleUI.currentId) ∧
      ui2.currentId = some (freshInterp 1 "mi").id ∧
      (∃ i2 ∈ ui2.interps, i2.id = (freshInterp 1 "mi").id ∧
        i2.inited = true ∧ i2.resumed = true ∧
        i2.resumeCount = (freshInterp 1 "mi").resumeCount + 1 ∧
        i2.initCount = (if (freshInterp 1 "mi").inited then
          (freshInterp 1 "mi").initCount else
          (freshInterp 1 "mi").initCount + 1) ∧
        i2.initFlag = (if (freshInterp 1 "mi").inited then
          (freshInterp 1 "mi").initFlag else some false)) ∧
      (∀ c, sampleUI.currentId = some c → c ≠ (freshInterp 1 "mi").id →
        ∀ iold ∈ sampleUI.interps, iold.id = c →
          ∃ i2 ∈ ui2.interps, i2.id = c ∧
            i2.suspendCount = iold.suspendCount + 1 ∧
            i2.resumed = false)) :=
  ⟨by decide, by decide,
   set_interp_switch_sequence (fun _ => true) ["console", "mi"] 2 sampleUI
     "mi" sampleUI (freshInterp 1 "mi") 2 (by decide) (by decide)
     (Or.inr rfl)⟩

theorem set_interp_restore (initOk : String → Bool) (reg : List String)
    {nid : Nat} {ui : UI} (hInv : Inv nid ui) {i : Interp}
    (hi : i ∈ ui.interps) (hinit : i.inited = true) :
    set_interp initOk reg nid ui i.name =
      (none, finishSwitch ui i.id, nid, ui.currentId) := by
  have hf : findByName ui.interps i.name = some i :=
    findByName_of_mem hInv.2.1 hi
  have hl : interp_lookup reg nid ui i.name = some (ui, i, nid) := by
    unfold interp_lookup
    rw [hf]
  rw [set_interp_of_lookup hl, if_pos hinit]

/-- C10: restoring a remembered, already-initialized front-end by its name
— what the destructor `set_interp (m_interp->name ())` (interps.h:162-165)
does — coincides with reinstating the stored pointer directly: under
per-session name uniqueness and memoized lookup, the by-name switch
constructs nothing, initializes nothing, produces exactly the
restore-by-identity state, and makes the identical instance current. -/
theorem restore_by_name_eq_restore_by_identity (initOk : String → Bool)
    (reg : List String) (nid : Nat) (ui : UI) (i : Interp)
    (hInv : Inv nid ui) (hi : i ∈ ui.interps) (hinit : i.inited = true) :
    set_interp initOk reg nid ui i.name =
      (none, restoreByIdentity ui i.id, nid, ui.currentId) ∧
    (restoreByIdentity ui i.id).currentId = some i.id :=
  ⟨set_interp_restore initOk reg hInv hi hinit, rfl⟩

/-- Witness for C10 at a concrete input: restoring `sampleUI`'s initialized
console instance by its name yields exactly the restore-by-identity state
and makes the console current again. -/
theorem restore_by_name_eq_restore_by_identity_witness :
    Inv 2 sampleUI ∧
    resumeInterp (initInterp true (freshInterp 0 "console")) ∈
      sampleUI.interps ∧
    (resumeInterp (initInterp true (freshInterp 0 "console"))).inited = true ∧
    (set_interp (fun _ => true) ["console", "mi"] 2 sampleUI
        (resumeInterp (initInterp true (freshInterp 0 "console"))).name =
      (none, restoreByIdentity sampleUI
        (resumeInterp (initInterp true (freshInterp 0 "console"))).id, 2,
       sampleUI.currentId) ∧
     (restoreByIdentity sampleUI
        (resumeInterp (initInterp true (freshInterp 0 "console"))).id).currentId =
       some (resumeInterp (initInterp true (freshInterp 0 "console"))).id) :=
  ⟨by decide, by decide, by decide,
   restore_by_name_eq_restore_by_identity (fun _ => true) ["console", "mi"]
     2 sampleUI (resumeInterp (initInterp true (freshInterp 0 "console")))
     (by decide) (by decide) (by decide)⟩

theorem set_interp_success_facts {initOk : String → Bool}
    {reg : List String} {nid : Nat} {ui : UI} {n : String} {ui' : UI}
    {nid' : Nat} {prev : Option Nat} (hInv : Inv nid ui)
    (h : set_interp initOk reg nid ui n = (none, ui', nid', prev)) :
    prev = ui.currentId ∧ Inv nid' ui' ∧ nid ≤ nid' ∧
    (∃ c2, ui'.currentId = some c2) ∧
    (∀ i ∈ ui.interps, ∃ j ∈ ui'.interps, j.id = i.id ∧ j.name = i.name ∧
      (i.inited = true → j.inited = true)) := by
  cases hlk : interp_lookup reg nid ui n with
  | none =>
      rw [set_interp_of_lookup_none hlk] at h
      injection h with h1 h2
      cases h1
  | some t =>
      obtain ⟨ui1, inst, nid1⟩ := t
      rw [set_interp_of_lookup hlk] at h
      obtain ⟨hInv1, hle1, hmem, hnameI, hcur1, hold⟩ := inv_interp_lookup hInv hlk
      by_cases hin : inst.inited = true
      · rw [if_pos hin] at h
        injection h with h1 h2
        injection h2 with h2a h2b
        injection h2b with h2b1 h2b2
        subst h2a
        subst h2b1
        subst h2b2
        refine ⟨rfl, inv_finishSwitch hInv1 ⟨inst, hmem, rfl, hin⟩, hle1,
          ⟨inst.id, rfl⟩, ?_⟩
        intro i hi
        rcases finishSwitch_forward inst.id (hold i hi) with
          ⟨j, hj, hjid, hjname, hjin, _, _⟩
        exact ⟨j, hj, hjid, hjname, fun hh => by rw [hjin]; exact hh⟩
      · rw [if_neg hin] at h
        by_cases hok : initOk n = true
        · rw [if_pos hok] at h
          have hni : inst.inited = false := by
            simpa using hin
          obtain ⟨hInv2, hm2⟩ := inv_initUpd hInv1 hmem hni false
          injection h with h1 h2
          injection h2 with h2a h2b
          injection h2b with h2b1 h2b2
          subst h2a
          subst h2b1
          subst h2b2
          have hm2c : initInterp false inst ∈ ({ ui1 with interps := updateInst ui1.interps inst.id (initInterp false) } : UI).interps := hm2
          refine ⟨rfl, inv_finishSwitch hInv2 ⟨_, hm2c, rfl, rfl⟩, hle1,
            ⟨inst.id, rfl⟩, ?_⟩
          intro i hi
          have hi1 := hold i hi
          have himg := mem_updateInst_of_mem hi1 inst.id (initInterp false)
          have himgc : (if i.id = inst.id then initInterp false i else i) ∈ ({ ui1 with interps := updateInst ui1.interps inst.id (initInterp false) } : UI).interps := himg
          rcases finishSwitch_forward inst.id himgc with
            ⟨j, hj, hjid, hjname, hjin, _, _⟩
          by_cases hidc : i.id = inst.id
          · rw [if_pos hidc] at hjid hjname hjin
            exact ⟨j, hj, by rw [hjid]; rfl, by rw [hjname]; rfl,
              fun hh => by rw [hjin]; rfl⟩
          · rw [if_neg hidc] at hjid hjname hjin
            exact ⟨j, hj, hjid, hjname, fun hh => by rw [hjin]; exact hh⟩
        · rw [if_neg hok] at h
          injection h with h1 h2
          cases h1

/-- C4: nested scoped switch guards restore in LIFO order: with a current
front-end `ia`, opening guard G1 (switch to `nB`) and then guard G2 (switch
to `nC`), closing G2 — a by-name switch to the front-end G2 remembered —
and then closing G1 — a by-name switch to `ia` — both succeed, and after
both have closed the session's current front-end is again the one current
before G1; the destructor path runs on every exit, including error unwind,
so the same restoration applies there. -/
theorem scoped_restore_nested_lifo (initOk : String → Bool)
    (reg : List String) (nid : Nat) (ui : UI) (ia : Interp)
    (nB nC : String) (ui1 ui2 : UI) (nid1 nid2 : Nat) (p1 p2 : Option Nat)
    (hInv : Inv nid ui) (ha : ui.currentId = some ia.id)
    (hia : ia ∈ ui.interps)
    (h1 : set_interp initOk reg nid ui nB = (none, ui1, nid1, p1))
    (h2 : set_interp initOk reg nid1 ui1 nC = (none, ui2, nid2, p2)) :
    ∃ ib ∈ ui1.interps, p2 = some ib.id ∧ ib.inited = true ∧
      ∃ ui3 nid3 p3, set_interp initOk reg nid2 ui2 ib.name =
          (none, ui3, nid3, p3) ∧
        ∃ ui4 nid4 p4, set_interp initOk reg nid3 ui3 ia.name =
            (none, ui4, nid4, p4) ∧
          ui4.currentId = ui.currentId := by
  obtain ⟨hp1, hInv1, hle1, hc1, hfwd1⟩ := set_interp_success_facts hInv h1
  obtain ⟨hp2, hInv2, hle2, hc2, hfwd2⟩ := set_interp_success_facts hInv1 h2
  have hiainit : ia.inited = true := by
    rcases (currentOkB_iff ui).mp hInv.2.2.2.2.1 ia.id ha with
      ⟨i0, hi0, h0id, h0in⟩
    have hEq : i0 = ia := eq_of_mem_of_id_nodup hInv.1 hi0 hia h0id
    rw [hEq] at h0in
    exact h0in
  obtain ⟨c2, hc2eq⟩ := hc1
  rcases (currentOkB_iff ui1).mp hInv1.2.2.2.2.1 c2 hc2eq with
    ⟨ib, hib, hibid, hibinit⟩
  refine ⟨ib, hib, ?_, hibinit, ?_⟩
  · rw [hp2, hc2eq, hibid]
  · rcases hfwd2 ib hib with ⟨jb, hjb, hjbid, hjbname, hjbin⟩
    have hjbinit : jb.inited = true := hjbin hibinit
    have hrestore2 := set_interp_restore initOk reg hInv2 hjb hjbinit
    refine ⟨finishSwitch ui2 jb.id, nid2, ui2.currentId, ?_, ?_⟩
    · rw [← hjbname]
      exact hrestore2
    · have hInv3 : Inv nid2 (finishSwitch ui2 jb.id) :=
        inv_finishSwitch hInv2 ⟨jb, hjb, rfl, hjbinit⟩
      rcases hfwd1 ia hia with ⟨ja1, hja1, hja1id, hja1name, hja1in⟩
      rcases hfwd2 ja1 hja1 with ⟨ja2, hja2, hja2id, hja2name, hja2in⟩
      rcases finishSwitch_forward jb.id hja2 with
        ⟨ja3, hja3, hja3id, hja3name, hja3in, _, _⟩
      have hja3init : ja3.inited = true := by
        rw [hja3in]
        exact hja2in (hja1in hiainit)
      have hrestore1 := set_interp_restore initOk reg hInv3 hja3 hja3init
      refine ⟨finishSwitch (finishSwitch ui2 jb.id) ja3.id, nid2,
        (finishSwitch ui2 jb.id).currentId, ?_, ?_⟩
      · have hnameeq : ja3.name = ia.name := by
          rw [hja3name, hja2name, hja1name]
        rw [← hnameeq]
        exact hrestore1
      · show some ja3.id = ui.currentId
        rw [ha, hja3id, hja2id, hja1id]

/-- Witness for C4 at a concrete input: on `sampleUI` (current: console),
open a guard switching to mi, open a nested guard switching to insight,
then close them in LIFO order; the console is current again at the end. -/
theorem scoped_restore_nested_lifo_witness :
    Inv 2 sampleUI ∧
    sampleUI.currentId =
      some (resumeInterp (initInterp true (freshInterp 0 "console"))).id ∧
    resumeInterp (initInterp true (freshInterp 0 "console")) ∈
      sampleUI.interps ∧
    set_interp allOk regSample 2 sampleUI "mi" =
      (none, guard1.2.1, guard1.2.2.1, guard1.2.2.2) ∧
    set_interp allOk regSample guard1.2.2.1 guard1.2.1 "insight" =
      (none, guard2.2.1, guard2.2.2.1, guard2.2.2.2) ∧
    (∃ ib ∈ guard1.2.1.interps, guard2.2.2.2 = some ib.id ∧
      ib.inited = true ∧
      ∃ ui3 nid3 p3, set_interp allOk regSample guard2.2.2.1 guard2.2.1
          ib.name = (none, ui3, nid3, p3) ∧
        ∃ ui4 nid4 p4, set_interp allOk regSample nid3 ui3
            (resumeInterp (initInterp true (freshInterp 0 "console"))).name =
            (none, ui4, nid4, p4) ∧
          ui4.currentId = sampleUI.currentId) :=
  ⟨by decide, by decide, by decide, by decide, by decide,
   scoped_restore_nested_lifo allOk regSample 2 sampleUI
     (resumeInterp (initInterp true (freshInterp 0 "console"))) "mi"
     "insight" guard1.2.1 guard2.2.1 guard1.2.2.1 guard2.2.2.1 guard1.2.2.2
     guard2.2.2.2 (by decide) (by decide) (by decide) (by decide)
     (by decide)⟩

end Interps
